import Mathlib

/-!
Verification of `fs_mgr/libfstab/boot_config.cpp` (boot configuration
resolution for Android's fs_mgr).

The embedding works over `List Char` (the C++ code manipulates
`std::string` byte sequences).  External collaborators (file reads, the
property store, the device-tree compatibility predicate) are modelled as
fields of an `Env` structure.  Each definition mirrors one C++ function
or one of the `android::base` string helpers it calls.
-/

set_option maxRecDepth 4000

/-- Characters accepted by C `isspace` in the C locale; used by
`android::base::Trim`. -/
def isSpaceChar (c : Char) : Bool :=
  c = ' ' || c = '\t' || c = '\n' || c = '\x0b' || c = '\x0c' || c = '\r'

/-- Removal of the maximal all-space suffix of a string (the backward
scan of `android::base::Trim`). -/
def trimRight : List Char → List Char
  | [] => []
  | c :: rest =>
      match trimRight rest with
      | [] => if isSpaceChar c then [] else [c]
      | r => c :: r

/-- Model of `android::base::Trim`: drop leading and trailing `isspace` characters. -/
def trim (s : List Char) : List Char :=
  trimRight (s.dropWhile isSpaceChar)

/-- Model of `android::base::Split(s, "\n")`: split at every newline, keeping empty
pieces; the empty string yields one empty piece. -/
def splitNl : List Char → List (List Char)
  | [] => [[]]
  | c :: rest =>
      if c = '\n' then [] :: splitNl rest
      else
        match splitNl rest with
        | [] => [[c]]
        | t :: ts => (c :: t) :: ts

/-- Model of `s.find('=')` together with the two `substr` calls around it: returns
the text before the first `=` and, when a `=` exists, the text after it. -/
def splitFirstEq : List Char → List Char × Option (List Char)
  | [] => ([], none)
  | c :: rest =>
      if c = '=' then ([], some rest)
      else
        let r := splitFirstEq rest
        (c :: r.1, r.2)

/-- Model of `android::base::ConsumePrefix(&sv, "\"")`: drop one leading double quote
if present. -/
def consumeLeadingQuote : List Char → List Char
  | '"' :: rest => rest
  | s => s

/-- Model of `android::base::ConsumeSuffix(&sv, "\"")`: drop one trailing double quote
if present. -/
def consumeTrailingQuote (s : List Char) : List Char :=
  if s.getLast? = some '"' then s.dropLast else s

/-- Model of `android::base::StringReplace(sv, "\", \"", ",", true)`: replace every
occurrence of the four characters quote-comma-space-quote by one comma,
scanning left to right without overlap. -/
def replaceQCSQ : List Char → List Char
  | '"' :: ',' :: ' ' :: '"' :: rest => ',' :: replaceQCSQ rest
  | c :: rest => c :: replaceQCSQ rest
  | [] => []

/-- The value normalization performed inside `ImportBootconfigFromString`
once a `=` has been found on the line: trim, then either erase all double
quotes (for the two special boot_device keys) or strip one surrounding
quote pair and collapse the kernel's `", "` list separator back to `,`. -/
def normalizeBootconfigValue (key rawAfterEq : List Char) : List Char :=
  let value := trim rawAfterEq
  if key = "androidboot.boot_device".toList ∨ key = "androidboot.boot_devices".toList then
    value.filter (fun c => c ≠ '"')
  else
    replaceQCSQ (consumeTrailingQuote (consumeLeadingQuote value))

/-- One iteration of the loop in `ImportBootconfigFromString`: the key is
the trimmed text before the first `=`; a line whose trimmed key is empty
is skipped; a line without `=` gets an empty value. -/
def parseBootconfigLine (line : List Char) : Option (List Char × List Char) :=
  let key := trim (splitFirstEq line).1
  if key = [] then none
  else
    match (splitFirstEq line).2 with
    | none => some (key, [])
    | some rawAfterEq => some (key, normalizeBootconfigValue key rawAfterEq)

/-- Model of `ImportBootconfigFromString`: the ordered sequence of (key, value)
pairs handed to the visitor callback, one per retained line. -/
def ImportBootconfigFromString (bootconfig : List Char) : List (List Char × List Char) :=
  (splitNl bootconfig).filterMap parseBootconfigLine

/-- Model of `GetBootconfigFromString`: runs the visitor over all pairs with a
`found` flag; the first pair whose key equals the target writes `*out`.
The pair `(found, final *out)` is returned, `out0` being the value `*out`
held before the call. -/
def GetBootconfigFromString (bootconfig key out0 : List Char) : Bool × List Char :=
  (ImportBootconfigFromString bootconfig).foldl
    (fun acc p => if acc.1 = false ∧ p.1 = key then (true, p.2) else acc)
    (false, out0)

/-- Helper for `splitTokens`: put character `c` at the front of the token
currently being built (the head of the token list). -/
def consTok (c : Char) : List (List Char) → List (List Char)
  | [] => [[c]]
  | t :: ts => (c :: t) :: ts

/-- The scanning loop of `fs_mgr_parse_cmdline`, rendered as a character
state machine.  The C++ code repeatedly does
`find_first_of(" \"")`; a quote switches to quoted mode until the
matching quote (`find(quote, found + 1)`); an unmatched quote runs to the
end of the string; only a space seen in unquoted mode ends a token.  The
quote characters themselves stay inside the token (they are erased later
by `remove_copy`). -/
def splitTokens : Bool → List Char → List (List Char)
  | _, [] => [[]]
  | quoted, c :: rest =>
      if quoted then
        if c = '"' then consTok c (splitTokens false rest)
        else consTok c (splitTokens true rest)
      else
        if c = ' ' then [] :: splitTokens false rest
        else if c = '"' then consTok c (splitTokens true rest)
        else consTok c (splitTokens false rest)

/-- The per-token tail of the `fs_mgr_parse_cmdline` loop: erase every
quote character from the token (`std::remove_copy`), split on the first
`=`; a token without `=` is kept only when non-empty (with empty value),
a token with `=` is always emitted. -/
def cmdlineTokenToPair (tok : List Char) : Option (List Char × List Char) :=
  let piece := tok.filter (fun c => c ≠ '"')
  match splitFirstEq piece with
  | (k, some v) => some (k, v)
  | (_, none) => if piece = [] then none else some (piece, [])

/-- Model of `fs_mgr_parse_cmdline`: tokenize at unquoted spaces, then convert each
token to a (key, value) pair, dropping empty no-`=` tokens. -/
def fs_mgr_parse_cmdline (cmdline : List Char) : List (List Char × List Char) :=
  (splitTokens false cmdline).filterMap cmdlineTokenToPair

/-- Model of `fs_mgr_get_boot_config_from_kernel`: scan the parsed cmdline pairs in
order for key `androidboot.<android_key>`; on a hit write the value into
`*out_val` and return true, otherwise write the empty string and return
false. -/
def fs_mgr_get_boot_config_from_kernel (cmdline android_key : List Char) :
    Bool × List Char :=
  let cmdline_key := "androidboot.".toList ++ android_key
  match (fs_mgr_parse_cmdline cmdline).find? (fun p => p.1 = cmdline_key) with
  | some p => (true, p.2)
  | none => (false, [])

/-- External collaborators of the core, as abstracted state: the
device-tree compatibility predicate, the device-tree file reader, the
property store (`GetProperty` with default already applied, so an absent
property reads as the empty string), the content of `/proc/bootconfig`
(empty when the read fails, since `GetBootconfig` ignores the read's
result), and the content of `/proc/cmdline` (`none` when the read fails,
since that failure short-circuits the lookup). -/
structure Env where
  dtCompatible : Bool
  readFile : List Char → Option (List Char)
  getprop : List Char → List Char
  bootconfig : List Char
  cmdlineRead : Option (List Char)

/-- Drop one trailing newline from the `/proc/cmdline` content
(`if (!cmdline.empty() && cmdline.back() == '\n') cmdline.pop_back()`). -/
def stripTrailingNewline (s : List Char) : List Char :=
  if s.getLast? = some '\n' then s.dropLast else s

/-- Model of `fs_mgr_get_boot_config_from_kernel_cmdline`: read `/proc/cmdline`
(failure returns false with `*out_val` untouched), strip one trailing
newline, and delegate to the cmdline search. -/
def fs_mgr_get_boot_config_from_kernel_cmdline (env : Env) (key out0 : List Char) :
    Bool × List Char :=
  match env.cmdlineRead with
  | none => (false, out0)
  | some content => fs_mgr_get_boot_config_from_kernel (stripTrailingNewline content) key

/-- The initializer of the function-local static in `GetAndroidDtDir`:
bootconfig key `androidboot.android_dt_dir`, short-circuit `||` to the
cmdline key `android_dt_dir`, require a non-empty result, append a `/`
when missing, else fall back to the fixed procfs path. -/
def computeAndroidDtDir (env : Env) : List Char :=
  let r1 := GetBootconfigFromString env.bootconfig "androidboot.android_dt_dir".toList []
  let r2 := if r1.1 then r1
            else fs_mgr_get_boot_config_from_kernel_cmdline env "android_dt_dir".toList r1.2
  if r2.1 ∧ r2.2 ≠ [] then
    if r2.2.getLast? = some '/' then r2.2 else r2.2 ++ ['/']
  else
    "/proc/device-tree/firmware/android/".toList

/-- Model of `GetAndroidDtDir` with the function-local static made explicit: the
cache holds `none` before the first call; the first call computes and
stores the directory, later calls return the stored value unchanged. -/
def GetAndroidDtDir (env : Env) : Option (List Char) → List Char × Option (List Char)
  | some cached => (cached, some cached)
  | none => (computeAndroidDtDir env, some (computeAndroidDtDir env))

/-- Steps 2-4 of `fs_mgr_get_boot_config` (the code below the device-tree
block): unconditionally overwrite `*out_val` with property
`ro.boot.<key>` and succeed if non-empty; then the bootconfig lookup for
`androidboot.<key>` (which leaves `*out_val` untouched on a miss); then
the kernel cmdline lookup. -/
def bootConfigFallbackSteps (env : Env) (key : List Char) : Bool × List Char :=
  let prop := env.getprop ("ro.boot.".toList ++ key)
  if prop ≠ [] then (true, prop)
  else
    let r3 := GetBootconfigFromString env.bootconfig ("androidboot.".toList ++ key) prop
    if r3.1 then (true, r3.2)
    else
      let r4 := fs_mgr_get_boot_config_from_kernel_cmdline env key r3.2
      if r4.1 then (true, r4.2) else (false, r4.2)

/-- Model of `fs_mgr_get_boot_config`: when the device tree is compatible, read
`<DtDir><key>`; a successful non-empty read drops its trailing byte and
wins; otherwise fall through to the property / bootconfig / cmdline
steps.  Returns `(found, final *out_val)` given the initial `*out_val`. -/
def fs_mgr_get_boot_config (env : Env) (key out0 : List Char) : Bool × List Char :=
  if env.dtCompatible then
    match env.readFile (computeAndroidDtDir env ++ key) with
    | some content =>
        if content ≠ [] then (true, content.dropLast)
        else bootConfigFallbackSteps env key
    | none => bootConfigFallbackSteps env key
  else bootConfigFallbackSteps env key


/-! ### Helper lemmas about the string primitives -/

theorem splitFirstEq_append (a b : List Char) (h : '=' ∉ a) :
    splitFirstEq (a ++ '=' :: b) = (a, some b) := by
  induction a with
  | nil => simp [splitFirstEq]
  | cons c a ih =>
      have hc : c ≠ '=' := fun hc => h (by simp [hc])
      have ha : '=' ∉ a := fun hm => h (List.mem_cons_of_mem _ hm)
      simp [splitFirstEq, hc, ih ha]

theorem splitFirstEq_fst_no_eq (s : List Char) : '=' ∉ (splitFirstEq s).1 := by
  induction s with
  | nil => simp [splitFirstEq]
  | cons c rest ih =>
      by_cases hc : c = '='
      · simp [splitFirstEq, hc]
      · simp only [splitFirstEq, if_neg hc, List.mem_cons, not_or]
        exact ⟨fun h => hc h.symm, ih⟩

theorem splitFirstEq_fst_append (s : List Char) : ∃ r, (splitFirstEq s).1 ++ r = s := by
  induction s with
  | nil => exact ⟨[], rfl⟩
  | cons c rest ih =>
      by_cases hc : c = '='
      · exact ⟨c :: rest, by simp [splitFirstEq, hc]⟩
      · obtain ⟨r, hr⟩ := ih
        exact ⟨r, by simp [splitFirstEq, hc, hr]⟩

theorem splitFirstEq_snd_none (s : List Char) (h : (splitFirstEq s).2 = none) :
    '=' ∉ s := by
  induction s with
  | nil => simp
  | cons c rest ih =>
      by_cases hc : c = '='
      · simp [splitFirstEq, hc] at h
      · simp only [splitFirstEq, if_neg hc] at h
        simp only [List.mem_cons, not_or]
        exact ⟨fun hh => hc hh.symm, ih h⟩

theorem splitNl_no_newline (s : List Char) (h : '\n' ∉ s) : splitNl s = [s] := by
  induction s with
  | nil => rfl
  | cons c rest ih =>
      have hc : c ≠ '\n' := fun hc => h (by simp [hc])
      have hr : '\n' ∉ rest := fun hm => h (List.mem_cons_of_mem _ hm)
      simp [splitNl, hc, ih hr]

theorem trimRight_head (l : List Char) :
    trimRight l = [] ∨ (trimRight l).head? = l.head? := by
  cases l with
  | nil => exact Or.inl rfl
  | cons c rest =>
      cases h : trimRight rest with
      | nil =>
          by_cases hc : isSpaceChar c
          · exact Or.inl (by simp [trimRight, h, hc])
          · exact Or.inr (by simp [trimRight, h, hc])
      | cons a as => exact Or.inr (by simp [trimRight, h])

theorem trimRight_idem (l : List Char) : trimRight (trimRight l) = trimRight l := by
  induction l with
  | nil => rfl
  | cons c rest ih =>
      cases h : trimRight rest with
      | nil =>
          by_cases hc : isSpaceChar c
          · simp [trimRight, h, hc]
          · simp [trimRight, h, hc]
      | cons a as =>
          rw [h] at ih
          have h1 : trimRight (c :: rest) = c :: a :: as := by simp [trimRight, h]
          rw [h1]
          show (match trimRight (a :: as) with
                | [] => if isSpaceChar c = true then [] else [c]
                | r => c :: r) = c :: a :: as
          rw [ih]

theorem dropWhile_head_not (p : Char → Bool) (l : List Char) (c : Char)
    (h : (l.dropWhile p).head? = some c) : p c = false := by
  induction l with
  | nil => simp [List.dropWhile] at h
  | cons a rest ih =>
      by_cases ha : p a
      · rw [List.dropWhile_cons, if_pos ha] at h
        exact ih h
      · rw [List.dropWhile_cons, if_neg ha] at h
        simp only [List.head?_cons, Option.some.injEq] at h
        rw [← h]
        exact Bool.not_eq_true _ ▸ ha

theorem dropWhile_id_of_head (p : Char → Bool) (l : List Char)
    (h : ∀ c, l.head? = some c → p c = false) : l.dropWhile p = l := by
  cases l with
  | nil => rfl
  | cons a rest => simp [List.dropWhile_cons, h a rfl]

theorem trim_idem (s : List Char) : trim (trim s) = trim s := by
  unfold trim
  have hd : (trimRight (s.dropWhile isSpaceChar)).dropWhile isSpaceChar
      = trimRight (s.dropWhile isSpaceChar) := by
    rcases trimRight_head (s.dropWhile isSpaceChar) with h | h
    · rw [h]; rfl
    · apply dropWhile_id_of_head
      intro c hc
      rw [h] at hc
      exact dropWhile_head_not _ _ _ hc
  rw [hd, trimRight_idem]

theorem foldl_found_stable (key : List Char) (l : List (List Char × List Char))
    (v : List Char) :
    l.foldl (fun acc p => if acc.1 = false ∧ p.1 = key then (true, p.2) else acc)
      (true, v) = (true, v) := by
  induction l with
  | nil => rfl
  | cons p l ih => simpa using ih

theorem GetBootconfigFromString_eq_find (bootconfig key out0 : List Char) :
    GetBootconfigFromString bootconfig key out0 =
      match (ImportBootconfigFromString bootconfig).find? (fun p => p.1 = key) with
      | some p => (true, p.2)
      | none => (false, out0) := by
  unfold GetBootconfigFromString
  generalize ImportBootconfigFromString bootconfig = l
  induction l with
  | nil => rfl
  | cons p l ih =>
      by_cases hp : p.1 = key
      · simp [List.foldl_cons, List.find?_cons, hp, foldl_found_stable]
      · simp [List.foldl_cons, List.find?_cons, hp, ih]

theorem consTok_length (c : Char) (ts : List (List Char)) :
    (consTok c ts).length ≤ ts.length + 1 := by
  cases ts <;> simp [consTok]

theorem splitTokens_length (q : Bool) (s : List Char) :
    (splitTokens q s).length ≤ s.length + 1 := by
  induction s generalizing q with
  | nil => cases q <;> simp [splitTokens]
  | cons c rest ih =>
      have step : ∀ q' : Bool,
          (consTok c (splitTokens q' rest)).length ≤ (c :: rest).length + 1 := by
        intro q'
        calc (consTok c (splitTokens q' rest)).length
            ≤ (splitTokens q' rest).length + 1 := consTok_length c _
          _ ≤ (rest.length + 1) + 1 := Nat.add_le_add_right (ih q') 1
          _ = (c :: rest).length + 1 := by simp
      cases q with
      | true =>
          by_cases hc : c = '"'
          · simpa [splitTokens, hc] using step false
          · simpa [splitTokens, hc] using step true
      | false =>
          by_cases hsp : c = ' '
          · simp only [splitTokens, if_pos hsp, if_true, List.length_cons, Bool.false_eq_true,
              if_false]
            exact Nat.succ_le_succ (ih false)
          · by_cases hc : c = '"'
            · simpa [splitTokens, hsp, hc] using step true
            · simpa [splitTokens, hsp, hc] using step false

/-! ### Claim theorems -/

/-- Claim C9: tokenizing `a=1 b="x y" c=2` yields exactly (a, 1), (b, x y),
(c, 2): the quoted space does not delimit tokens, every quote character is
removed, and the protected space is retained. -/
theorem cmdline_quoted_space_tokenization :
    fs_mgr_parse_cmdline "a=1 b=\"x y\" c=2".toList =
      [("a".toList, "1".toList), ("b".toList, "x y".toList),
       ("c".toList, "2".toList)] := by
  decide

/-- Claim C5: the tokenizer is a total function with output bounded by the
input length (so it cannot fail or loop), and with no closing quote the
rest of the string belongs to the current token:
`a=1 b="unterminated c=2` yields exactly (a, 1) and (b, unterminated c=2). -/
theorem cmdline_unbalanced_quote_termination :
    (∀ s : List Char, (fs_mgr_parse_cmdline s).length ≤ s.length + 1) ∧
    fs_mgr_parse_cmdline "a=1 b=\"unterminated c=2".toList =
      [("a".toList, "1".toList), ("b".toList, "unterminated c=2".toList)] := by
  constructor
  · intro s
    calc (fs_mgr_parse_cmdline s).length
        ≤ (splitTokens false s).length := List.length_filterMap_le _ _
      _ ≤ s.length + 1 := splitTokens_length false s
  · decide

/-- Claim C2 counterexample: on the cmdline input `=v` the tokenizer emits
the pair `("", "v")`, so a pair with an empty key does reach consumers,
contrary to the claim that both parsers drop empty-key pairs. -/
theorem cmdline_empty_key_counterexample :
    ¬ (∀ p ∈ fs_mgr_parse_cmdline "=v".toList, p.1 ≠ []) := by
  decide

theorem mem_filter_no_quote (tok : List Char) :
    '"' ∉ tok.filter (fun c => c ≠ '"') := by
  intro h
  rw [List.mem_filter] at h
  simpa using h.2

/-- Claim C2 (amended): the bootconfig parser emits only pairs whose key is
non-empty and whitespace-trimmed (re-trimming changes nothing).  The
cmdline tokenizer does not trim keys and drops only empty tokens lacking
a `=` (a token such as `=v` emits an empty key); what does hold there is
that every emitted key contains no `=` and no quote character. -/
theorem parser_key_invariants :
    (∀ blob p, p ∈ ImportBootconfigFromString blob → p.1 ≠ [] ∧ trim p.1 = p.1) ∧
    (∀ s p, p ∈ fs_mgr_parse_cmdline s → '=' ∉ p.1 ∧ '"' ∉ p.1) := by
  constructor
  · intro blob p hp
    rw [ImportBootconfigFromString, List.mem_filterMap] at hp
    obtain ⟨line, -, hline⟩ := hp
    simp only [parseBootconfigLine] at hline
    by_cases hk : trim (splitFirstEq line).1 = []
    · simp [hk] at hline
    · rw [if_neg hk] at hline
      cases hsnd : (splitFirstEq line).2 with
      | none =>
          rw [hsnd] at hline
          obtain rfl := Option.some.inj hline
          exact ⟨hk, trim_idem _⟩
      | some raw =>
          rw [hsnd] at hline
          obtain rfl := Option.some.inj hline
          exact ⟨hk, trim_idem _⟩
  · intro s p hp
    rw [fs_mgr_parse_cmdline, List.mem_filterMap] at hp
    obtain ⟨tok, -, htok⟩ := hp
    simp only [cmdlineTokenToPair] at htok
    have hq : '"' ∉ tok.filter (fun c => c ≠ '"') := mem_filter_no_quote tok
    rcases hse : splitFirstEq (tok.filter (fun c => c ≠ '"')) with ⟨k, o⟩
    rw [hse] at htok
    cases o with
    | some v =>
        obtain rfl := Option.some.inj htok
        have hkfst : k = (splitFirstEq (tok.filter (fun c => c ≠ '"'))).1 := by
          rw [hse]
        constructor
        · rw [hkfst]
          exact splitFirstEq_fst_no_eq _
        · obtain ⟨r, hr⟩ := splitFirstEq_fst_append (tok.filter (fun c => c ≠ '"'))
          intro hmem
          apply hq
          rw [← hr, ← hkfst]
          exact List.mem_append.mpr (Or.inl hmem)
    | none =>
        by_cases he : tok.filter (fun c => c ≠ '"') = []
        · rw [if_pos he] at htok
          exact Option.noConfusion htok
        · rw [if_neg he] at htok
          obtain rfl := Option.some.inj htok
          have hsnd : (splitFirstEq (tok.filter (fun c => c ≠ '"'))).2 = none := by
            rw [hse]
          exact ⟨splitFirstEq_snd_none _ hsnd, hq⟩

theorem parser_key_invariants_witness :
    ("a".toList, "1".toList) ∈ fs_mgr_parse_cmdline "a=1".toList ∧ '=' ∉ "a".toList :=
  ⟨by decide, (parser_key_invariants.2 "a=1".toList ("a".toList, "1".toList) (by decide)).1⟩

/-- Claim C8: `GetBootconfigFromString` succeeds with the value of the
first emitted pair (in blob order) whose key equals the target, ignoring
later duplicate keys; when no pair matches it returns false, leaving the
output unchanged. -/
theorem bootconfig_first_occurrence_wins (blob key out0 : List Char) :
    (∀ p, (ImportBootconfigFromString blob).find? (fun q => q.1 = key) = some p →
        GetBootconfigFromString blob key out0 = (true, p.2)) ∧
    ((ImportBootconfigFromString blob).find? (fun q => q.1 = key) = none →
        GetBootconfigFromString blob key out0 = (false, out0)) := by
  constructor
  · intro p hp
    rw [GetBootconfigFromString_eq_find, hp]
  · intro h
    rw [GetBootconfigFromString_eq_find, h]

theorem bootconfig_first_occurrence_wins_witness :
    GetBootconfigFromString "a=1\na=2".toList "a".toList [] = (true, "1".toList) :=
  (bootconfig_first_occurrence_wins "a=1\na=2".toList "a".toList []).1
    ("a".toList, "1".toList) (by decide)

/-- Claim C1: the resolver consults device tree, property store,
bootconfig, kernel cmdline in that order, stopping at the first success:
with the device tree incompatible and property `ro.boot.foo` empty, a
bootconfig entry `androidboot.foo=baz` wins over the cmdline entry
`androidboot.foo=qux` and the resolution returns (baz, found = true). -/
theorem boot_config_resolution_order (env : Env) (out0 : List Char)
    (hdt : env.dtCompatible = false)
    (hprop : env.getprop "ro.boot.foo".toList = [])
    (hbc : env.bootconfig = "androidboot.foo=baz".toList)
    (hcl : env.cmdlineRead = some "androidboot.foo=qux".toList) :
    fs_mgr_get_boot_config env "foo".toList out0 = (true, "baz".toList) := by
  have hkey : "ro.boot.".toList ++ "foo".toList = "ro.boot.foo".toList := by decide
  have h3 : GetBootconfigFromString "androidboot.foo=baz".toList
      ("androidboot.".toList ++ "foo".toList) [] = (true, "baz".toList) := by decide
  simp only [fs_mgr_get_boot_config, hdt, Bool.false_eq_true, if_false,
    bootConfigFallbackSteps, hkey, hprop, hbc, h3]
  simp

theorem boot_config_resolution_order_witness :
    fs_mgr_get_boot_config
      ⟨false, fun _ => none, fun _ => [], "androidboot.foo=baz".toList,
        some "androidboot.foo=qux".toList⟩ "foo".toList [] = (true, "baz".toList) :=
  boot_config_resolution_order _ _ rfl rfl rfl rfl

theorem prod_eq_false_snd {r : Bool × List Char} (h : ¬ r.1 = true) :
    r = (false, r.2) := by
  cases r with
  | mk a b =>
      cases a
      · rfl
      · exact absurd rfl h

theorem from_kernel_false_empty (cmdline key v : List Char)
    (h : fs_mgr_get_boot_config_from_kernel cmdline key = (false, v)) : v = [] := by
  simp only [fs_mgr_get_boot_config_from_kernel] at h
  cases hf : (fs_mgr_parse_cmdline cmdline).find?
      (fun p => p.1 = "androidboot.".toList ++ key) with
  | some p =>
      rw [hf] at h
      exact absurd (congrArg Prod.fst h) (by simp)
  | none =>
      rw [hf] at h
      exact (congrArg Prod.snd h).symm

theorem GetBootconfigFromString_false_out (bootconfig key out0 v : List Char)
    (h : GetBootconfigFromString bootconfig key out0 = (false, v)) : v = out0 := by
  rw [GetBootconfigFromString_eq_find] at h
  cases hf : (ImportBootconfigFromString bootconfig).find? (fun p => p.1 = key) with
  | some p =>
      rw [hf] at h
      exact absurd (congrArg Prod.fst h) (by simp)
  | none =>
      rw [hf] at h
      exact (congrArg Prod.snd h).symm

theorem from_kernel_cmdline_false_out (env : Env) (key out0 v : List Char)
    (h : fs_mgr_get_boot_config_from_kernel_cmdline env key out0 = (false, v)) :
    v = out0 ∨ v = [] := by
  simp only [fs_mgr_get_boot_config_from_kernel_cmdline] at h
  cases hcl : env.cmdlineRead with
  | none =>
      rw [hcl] at h
      exact Or.inl (congrArg Prod.snd h).symm
  | some content =>
      rw [hcl] at h
      exact Or.inr (from_kernel_false_empty _ _ _ h)

theorem bootConfigFallbackSteps_false_empty (env : Env) (key v : List Char)
    (h : bootConfigFallbackSteps env key = (false, v)) : v = [] := by
  simp only [bootConfigFallbackSteps] at h
  by_cases hp : env.getprop ("ro.boot.".toList ++ key) ≠ []
  · rw [if_pos hp] at h
    exact absurd (congrArg Prod.fst h) (by simp)
  · rw [if_neg hp] at h
    push_neg at hp
    rw [hp] at h
    by_cases h3 : (GetBootconfigFromString env.bootconfig
        ("androidboot.".toList ++ key) []).1 = true
    · rw [if_pos h3] at h
      exact absurd (congrArg Prod.fst h) (by simp)
    · rw [if_neg h3] at h
      have ho3 : (GetBootconfigFromString env.bootconfig
          ("androidboot.".toList ++ key) []).2 = [] :=
        GetBootconfigFromString_false_out _ _ _ _ (prod_eq_false_snd h3)
      rw [ho3] at h
      by_cases h4 : (fs_mgr_get_boot_config_from_kernel_cmdline env key []).1 = true
      · rw [if_pos h4] at h
        exact absurd (congrArg Prod.fst h) (by simp)
      · rw [if_neg h4] at h
        have hv : v = (fs_mgr_get_boot_config_from_kernel_cmdline env key []).2 :=
          (congrArg Prod.snd h).symm
        rcases from_kernel_cmdline_false_out env key [] _ (prod_eq_false_snd h4) with h5 | h5
        · rw [hv, h5]
        · rw [hv, h5]

/-- Claim C10: whenever `fs_mgr_get_boot_config` returns false, the final
`*out_val` is the empty string on every path: the property step writes ""
for an absent property, the bootconfig step leaves `*out_val` untouched on
a miss, and the cmdline search writes "" on its own not-found path. -/
theorem boot_config_not_found_empty (env : Env) (key out0 v : List Char)
    (h : fs_mgr_get_boot_config env key out0 = (false, v)) : v = [] := by
  simp only [fs_mgr_get_boot_config] at h
  by_cases hdt : env.dtCompatible = true
  · rw [if_pos hdt] at h
    cases hr : env.readFile (computeAndroidDtDir env ++ key) with
    | none =>
        rw [hr] at h
        exact bootConfigFallbackSteps_false_empty env key v h
    | some content =>
        simp only [hr] at h
        by_cases hc : content ≠ []
        · rw [if_pos hc] at h
          exact absurd (congrArg Prod.fst h) (by simp)
        · rw [if_neg hc] at h
          exact bootConfigFallbackSteps_false_empty env key v h
  · rw [if_neg hdt] at h
    exact bootConfigFallbackSteps_false_empty env key v h

theorem boot_config_not_found_empty_witness :
    fs_mgr_get_boot_config ⟨false, fun _ => none, fun _ => [], [], none⟩
        "foo".toList "junk".toList = (false, []) ∧ ([] : List Char) = [] :=
  ⟨by decide,
   boot_config_not_found_empty ⟨false, fun _ => none, fun _ => [], [], none⟩
     "foo".toList "junk".toList [] (by decide)⟩

/-- Claim C7: the device-tree step is attempted only when the device tree
is compatible; a successful read of `<DtDir><key>` with non-empty content
drops exactly one trailing byte and returns it as found; a successful
read of empty content does not count as found and resolution falls
through to the property-store steps. -/
theorem boot_config_dt_step (env : Env) (key out0 : List Char) :
    (env.dtCompatible = true →
      ∀ content, env.readFile (computeAndroidDtDir env ++ key) = some content →
        content ≠ [] →
        fs_mgr_get_boot_config env key out0 = (true, content.dropLast)) ∧
    (env.dtCompatible = true →
      env.readFile (computeAndroidDtDir env ++ key) = some [] →
      fs_mgr_get_boot_config env key out0 = bootConfigFallbackSteps env key) ∧
    (env.dtCompatible = false →
      fs_mgr_get_boot_config env key out0 = bootConfigFallbackSteps env key) := by
  refine ⟨?_, ?_, ?_⟩
  · intro hdt content hr hc
    simp only [fs_mgr_get_boot_config, hdt, if_true, hr]
    rw [if_pos hc]
  · intro hdt hr
    simp only [fs_mgr_get_boot_config, hdt, if_true, hr]
    simp
  · intro hdt
    simp only [fs_mgr_get_boot_config, hdt, Bool.false_eq_true, if_false]

theorem boot_config_dt_step_witness :
    fs_mgr_get_boot_config ⟨true, fun _ => some "ab".toList, fun _ => [], [], none⟩
        "foo".toList [] = (true, "a".toList) :=
  (boot_config_dt_step ⟨true, fun _ => some "ab".toList, fun _ => [], [], none⟩
    "foo".toList []).1 rfl "ab".toList rfl (by decide)

theorem dtDirCandidate_getLast (r : Bool × List Char) :
    (if r.1 ∧ r.2 ≠ [] then (if r.2.getLast? = some '/' then r.2 else r.2 ++ ['/'])
     else "/proc/device-tree/firmware/android/".toList).getLast? = some '/' := by
  by_cases h : r.1 ∧ r.2 ≠ []
  · rw [if_pos h]
    by_cases hl : r.2.getLast? = some '/'
    · rw [if_pos hl]
      exact hl
    · rw [if_neg hl]
      exact List.getLast?_concat _
  · rw [if_neg h]
    decide

/-- Claim C6: the computed device-tree directory always ends in '/'; when
neither the bootconfig key `androidboot.android_dt_dir` nor the cmdline
key `android_dt_dir` yields a non-empty value, it equals the fixed
fallback `/proc/device-tree/firmware/android/`; and the value stored by
the first `GetAndroidDtDir` call is returned unchanged by later calls. -/
theorem android_dt_dir_resolution (env : Env) :
    (computeAndroidDtDir env).getLast? = some '/' ∧
    (((GetBootconfigFromString env.bootconfig "androidboot.android_dt_dir".toList []).1 = false ∨
      (GetBootconfigFromString env.bootconfig "androidboot.android_dt_dir".toList []).2 = []) →
     ((fs_mgr_get_boot_config_from_kernel_cmdline env "android_dt_dir".toList []).1 = false ∨
      (fs_mgr_get_boot_config_from_kernel_cmdline env "android_dt_dir".toList []).2 = []) →
     computeAndroidDtDir env = "/proc/device-tree/firmware/android/".toList) ∧
    (GetAndroidDtDir env none = (computeAndroidDtDir env, some (computeAndroidDtDir env)) ∧
     GetAndroidDtDir env ((GetAndroidDtDir env none).2) = GetAndroidDtDir env none) := by
  refine ⟨?_, ?_, rfl, rfl⟩
  · simp only [computeAndroidDtDir]
    exact dtDirCandidate_getLast _
  · intro h1 h2
    simp only [computeAndroidDtDir]
    by_cases hb : (GetBootconfigFromString env.bootconfig
        "androidboot.android_dt_dir".toList []).1 = true
    · have hv : (GetBootconfigFromString env.bootconfig
          "androidboot.android_dt_dir".toList []).2 = [] := by
        rcases h1 with h | h
        · rw [h] at hb
          exact absurd hb (by decide)
        · exact h
      rw [if_pos hb]
      rw [if_neg (fun hand => hand.2 hv)]
    · rw [if_neg hb]
      have hv : (GetBootconfigFromString env.bootconfig
          "androidboot.android_dt_dir".toList []).2 = [] :=
        GetBootconfigFromString_false_out _ _ _ _ (prod_eq_false_snd hb)
      rw [hv]
      by_cases hc : (fs_mgr_get_boot_config_from_kernel_cmdline env
          "android_dt_dir".toList []).1 = true
      · have hcv : (fs_mgr_get_boot_config_from_kernel_cmdline env
            "android_dt_dir".toList []).2 = [] := by
          rcases h2 with h | h
          · rw [h] at hc
            exact absurd hc (by decide)
          · exact h
        rw [if_neg (fun hand => hand.2 hcv)]
      · rw [if_neg (fun hand => hc hand.1)]

theorem android_dt_dir_resolution_witness :
    computeAndroidDtDir ⟨false, fun _ => none, fun _ => [], [], none⟩ =
      "/proc/device-tree/firmware/android/".toList :=
  (android_dt_dir_resolution ⟨false, fun _ => none, fun _ => [], [], none⟩).2.1
    (Or.inl (by decide)) (Or.inl (by decide))

theorem import_single_line (key raw : List Char)
    (hne : key ≠ []) (htrim : trim key = key) (hnlk : '\n' ∉ key)
    (heqk : '=' ∉ key) (hnlr : '\n' ∉ raw) :
    ImportBootconfigFromString (key ++ '=' :: raw) =
      [(key, normalizeBootconfigValue key raw)] := by
  have hnl : '\n' ∉ key ++ '=' :: raw := by
    intro h
    rcases List.mem_append.mp h with h | h
    · exact hnlk h
    · rcases List.mem_cons.mp h with h | h
      · exact absurd h (by decide)
      · exact hnlr h
  rw [ImportBootconfigFromString, splitNl_no_newline _ hnl]
  simp only [List.filterMap_cons, List.filterMap_nil, parseBootconfigLine,
    splitFirstEq_append key raw heqk, htrim]
  rw [if_neg hne]

/-- Claim C3: for a line whose trimmed key is not one of the special
boot_device keys, the emitted value is the trimmed text after the first
`=` with at most one leading and one trailing double quote stripped and
every quote-comma-space-quote sequence replaced by a single comma; in
particular `foo = "v1", "v2"` yields the pair (foo, v1,v2). -/
theorem bootconfig_value_normalization :
    (∀ key raw : List Char,
        key ≠ [] → trim key = key → '\n' ∉ key → '=' ∉ key →
        key ≠ "androidboot.boot_device".toList →
        key ≠ "androidboot.boot_devices".toList → '\n' ∉ raw →
        ImportBootconfigFromString (key ++ '=' :: raw) =
          [(key, replaceQCSQ (consumeTrailingQuote (consumeLeadingQuote (trim raw))))]) ∧
    ImportBootconfigFromString "foo = \"v1\", \"v2\"".toList =
      [("foo".toList, "v1,v2".toList)] := by
  constructor
  · intro key raw hne htrim hnlk heqk hbd hbds hnlr
    rw [import_single_line key raw hne htrim hnlk heqk hnlr]
    simp only [normalizeBootconfigValue]
    rw [if_neg (not_or.mpr ⟨hbd, hbds⟩)]
  · decide

theorem bootconfig_value_normalization_witness :
    ImportBootconfigFromString ("k".toList ++ '=' :: " \"a\", \"b\" ".toList) =
      [("k".toList, replaceQCSQ (consumeTrailingQuote (consumeLeadingQuote
        (trim " \"a\", \"b\" ".toList))))] :=
  bootconfig_value_normalization.1 "k".toList " \"a\", \"b\" ".toList (by decide)
    (by decide) (by decide) (by decide) (by decide) (by decide) (by decide)

/-- Claim C4: for the special keys `androidboot.boot_device` and
`androidboot.boot_devices` every double-quote character is removed from
the trimmed value while commas and spaces are left untouched; in
particular `androidboot.boot_device = "mmc,0", "mmc,1"` yields the value
`mmc,0, mmc,1` with the comma-space separator preserved verbatim. -/
theorem bootconfig_boot_device_values :
    (∀ raw : List Char, '\n' ∉ raw →
        ImportBootconfigFromString ("androidboot.boot_device".toList ++ '=' :: raw) =
          [("androidboot.boot_device".toList, (trim raw).filter (fun c => c ≠ '"'))]) ∧
    (∀ raw : List Char, '\n' ∉ raw →
        ImportBootconfigFromString ("androidboot.boot_devices".toList ++ '=' :: raw) =
          [("androidboot.boot_devices".toList, (trim raw).filter (fun c => c ≠ '"'))]) ∧
    ImportBootconfigFromString "androidboot.boot_device = \"mmc,0\", \"mmc,1\"".toList =
      [("androidboot.boot_device".toList, "mmc,0, mmc,1".toList)] := by
  refine ⟨?_, ?_, by decide⟩
  · intro raw hnlr
    rw [import_single_line _ raw (by decide) (by decide) (by decide) (by decide) hnlr]
    simp [normalizeBootconfigValue]
  · intro raw hnlr
    rw [import_single_line _ raw (by decide) (by decide) (by decide) (by decide) hnlr]
    simp [normalizeBootconfigValue]

theorem bootconfig_boot_device_values_witness :
    ImportBootconfigFromString ("androidboot.boot_device".toList ++ '=' :: " \"x,0\" ".toList) =
      [("androidboot.boot_device".toList,
        (trim " \"x,0\" ".toList).filter (fun c => c ≠ '"'))] :=
  bootconfig_boot_device_values.1 " \"x,0\" ".toList (by decide)
